import Mathlib

set_option maxRecDepth 100000

/-!
Verification development for the Analyze-format header module
(`src/nifti/analyze.py`).

The header's canonical state in the source is a 348-byte binary block
(a numpy structured scalar) together with a byte-order tag and an
open-ended ancillary mapping (`extra_data`).  We embed that state
directly: the block is a `List Nat` of bytes, the byte order is an
`Endian` tag, and the ancillary mapping is an association list.
Multi-byte integer fields are decoded/encoded two's-complement with the
byte order given by the tag ("native" is fixed to little-endian in the
model; only the native/swapped distinction is observable).  `pixdim`,
`vox_offset` and the other `f4` fields are IEEE-754 single-precision
bit patterns; numeric readings of them go through an exact rational
decoding (`f32ToRat`), which agrees with float semantics on all finite
values (claims only evaluate it at exactly representable inputs).
-/

/-- Byte-order tag of a header block: the only observable distinction in
the source is native vs byteswapped. -/
inductive Endian where
  | native
  | swapped
deriving DecidableEq

/-- Opposite byte order. -/
def Endian.opposite : Endian → Endian
  | .native => .swapped
  | .swapped => .native

/-- Orient the bytes of one field element: native order keeps the
little-endian model order, swapped order reverses the element's bytes. -/
def orientBytes (e : Endian) (l : List Nat) : List Nat :=
  match e with
  | .native => l
  | .swapped => l.reverse

/-- Little-endian unsigned value of a byte list. -/
def decodeLE (l : List Nat) : Nat :=
  l.foldr (fun b acc => b + 256 * acc) 0

/-- Little-endian bytes (width `w`) of a natural number (mod 2^(8w)). -/
def encodeLE : Nat → Nat → List Nat
  | 0, _ => []
  | w + 1, n => n % 256 :: encodeLE w (n / 256)

/-- Reinterpret a `w`-byte unsigned value as two's-complement signed. -/
def toSigned (w : Nat) (u : Nat) : Int :=
  if u < 2 ^ (8 * w - 1) then (u : Int) else (u : Int) - 2 ^ (8 * w)

/-- Decode a `w`-byte integer field stored with byte order `e`. -/
def decodeIntEnd (e : Endian) (w : Nat) (bs : List Nat) : Int :=
  toSigned w (decodeLE (orientBytes e bs))

/-- Encode an integer into a `w`-byte field with byte order `e`,
wrapping modulo 2^(8w) as numpy assignment to a fixed-width field does. -/
def encodeIntEnd (e : Endian) (w : Nat) (v : Int) : List Nat :=
  orientBytes e (encodeLE w (v % (2 ^ (8 * w) : Int)).toNat)

/-- Read `n` bytes at byte offset `off` of a block. -/
def getBytes (off n : Nat) (b : List Nat) : List Nat :=
  (b.drop off).take n

/-- Overwrite the bytes at offset `off` of a block with `l`. -/
def setBytes (off : Nat) (l : List Nat) (b : List Nat) : List Nat :=
  b.take off ++ l ++ b.drop (off + l.length)

/-- Concatenation of a list of byte words. -/
def wordsConcat (ws : List (List Nat)) : List Nat :=
  ws.foldr (fun a b => a ++ b) []

/-- Per-field element widths of the 348-byte Analyze header layout, in
offset order (from `header_key_dtd ++ image_dimension_dtd ++
data_history_dtd` in the source).  Character fields are 1-byte
elements, `i2`/`i4`/`f4` elements are 2/4 bytes. -/
def layoutWidths : List Nat :=
  [4] ++ List.replicate 10 1 ++ List.replicate 18 1 ++ [4, 2, 1, 1]
    ++ List.replicate 8 2 ++ List.replicate 4 1 ++ List.replicate 8 1
    ++ [2, 2, 2, 2] ++ List.replicate 8 4
    ++ [4, 4, 4, 4, 4, 4, 4, 4, 4, 4]
    ++ List.replicate 80 1 ++ List.replicate 24 1 ++ [1]
    ++ List.replicate 10 1 ++ List.replicate 10 1 ++ List.replicate 10 1
    ++ List.replicate 10 1 ++ List.replicate 10 1 ++ List.replicate 10 1
    ++ List.replicate 3 1 ++ List.replicate 8 4

/-- Reverse the bytes of each field element of a block, walking an
element-width list (the model of `ndarray.byteswap`). -/
def bsWalk : List Nat → List Nat → List Nat
  | [], b => b
  | w :: ws, b => (b.take w).reverse ++ bsWalk ws (b.drop w)

/-- Byteswap every field element of a header block. -/
def byteswapBlock (b : List Nat) : List Nat :=
  bsWalk layoutWidths b

/-- Sign bit of an IEEE-754 single bit pattern. -/
def f32Sign (bits : Nat) : Nat := bits / 2 ^ 31

/-- Biased exponent of an IEEE-754 single bit pattern. -/
def f32Exp (bits : Nat) : Nat := (bits / 2 ^ 23) % 2 ^ 8

/-- Fraction field of an IEEE-754 single bit pattern. -/
def f32Frac (bits : Nat) : Nat := bits % 2 ^ 23

/-- Whether the float with this bit pattern compares `< 0` (IEEE
semantics: true for negative finite nonzero values and -inf, false for
-0.0 and NaN). -/
def f32IsNeg (bits : Nat) : Bool :=
  f32Sign bits == 1
    && !(f32Exp bits == 0 && f32Frac bits == 0)
    && !(f32Exp bits == 255 && f32Frac bits != 0)

/-- Bit pattern of the absolute value (`np.abs` clears the sign bit). -/
def f32Abs (bits : Nat) : Nat := bits % 2 ^ 31

/-- Exact rational value of a finite IEEE-754 single bit pattern
(NaN and the infinities are mapped to 0; no claim evaluates them). -/
def f32ToRat (bits : Nat) : ℚ :=
  let s : Int := if f32Sign bits = 1 then -1 else 1
  let e := f32Exp bits
  let f := f32Frac bits
  if e = 0 then mkRat (s * f) (2 ^ 149)
  else if e = 255 then 0
  else if 150 ≤ e then ((s * ((2 ^ 23 + f) * 2 ^ (e - 150)) : Int) : ℚ)
  else mkRat (s * ((2 ^ 23 : Nat) + f)) (2 ^ (150 - e))

/-- Truncation of a rational toward zero, the model of Python `int()`
applied to a float. -/
def ratTrunc (q : ℚ) : Int := q.num.tdiv q.den

/-- Data-type codes of the Analyze `_dtdefs` table. -/
inductive Dt where
  | none
  | binary
  | uint8
  | int16
  | int32
  | float32
  | complex64
  | float64
  | RGB
  | all
deriving DecidableEq

/-- Integer code of a data type (first column of `_dtdefs`). -/
def dtCode : Dt → Int
  | .none => 0
  | .binary => 1
  | .uint8 => 2
  | .int16 => 4
  | .int32 => 8
  | .float32 => 16
  | .complex64 => 32
  | .float64 => 64
  | .RGB => 128
  | .all => 255

/-- Data type of an integer code, when the code is in the table. -/
def dtOfCode (n : Int) : Option Dt :=
  if n = 0 then some .none
  else if n = 1 then some .binary
  else if n = 2 then some .uint8
  else if n = 4 then some .int16
  else if n = 8 then some .int32
  else if n = 16 then some .float32
  else if n = 32 then some .complex64
  else if n = 64 then some .float64
  else if n = 128 then some .RGB
  else if n = 255 then some .all
  else Option.none

/-- String label of a data type (second column of `_dtdefs`). -/
def dtLabel : Dt → String
  | .none => "none"
  | .binary => "binary"
  | .uint8 => "uint8"
  | .int16 => "int16"
  | .int32 => "int32"
  | .float32 => "float32"
  | .complex64 => "complex64"
  | .float64 => "float64"
  | .RGB => "RGB"
  | .all => "all"

/-- Data type of a label, when the label is in the table. -/
def dtOfLabel (s : String) : Option Dt :=
  if s = "none" then some .none
  else if s = "binary" then some .binary
  else if s = "uint8" then some .uint8
  else if s = "int16" then some .int16
  else if s = "int32" then some .int32
  else if s = "float32" then some .float32
  else if s = "complex64" then some .complex64
  else if s = "float64" then some .float64
  else if s = "RGB" then some .RGB
  else if s = "all" then some .all
  else Option.none

/-- Byte size of one element of the data type (numpy `dtype.itemsize`;
the `np.void` entries have itemsize 0, the RGB record has 3). -/
def dtItemsize : Dt → Nat
  | .none => 0
  | .binary => 0
  | .uint8 => 1
  | .int16 => 2
  | .int32 => 4
  | .float32 => 4
  | .complex64 => 8
  | .float64 => 8
  | .RGB => 3
  | .all => 0

/-- Whether numpy `dtype.type is np.void` holds for the equivalent
dtype: true for the opaque codes and also for the RGB record type. -/
def dtTypeIsVoid : Dt → Bool
  | .none => true
  | .binary => true
  | .all => true
  | .RGB => true
  | _ => false

/-- Whether the dtype is void without fields (`dtype.type is np.void
and not dtype.fields` in `set_data_dtype`): RGB has fields, so only the
three opaque codes qualify. -/
def dtIsVoidNoFields : Dt → Bool
  | .none => true
  | .binary => true
  | .all => true
  | _ => false

/-- A key accepted by the data-type registry lookup: an integer code, a
string label, or a dtype itself. -/
inductive DtKey where
  | code (n : Int)
  | label (s : String)
  | dtype (d : Dt)
deriving DecidableEq

/-- Registry lookup (`data_type_codes[key]` followed by
`data_type_codes.dtype[code]`). -/
def dtLookup : DtKey → Option Dt
  | .code n => dtOfCode n
  | .label s => dtOfLabel s
  | .dtype d => some d

/-- String form of a key used in error messages (`'%s' % datatype`). -/
def keyRepr : DtKey → String
  | .code n => toString n
  | .label s => s
  | .dtype d => dtLabel d

/-- Error kinds surfaced by the module: `HeaderDataError`,
`HeaderTypeError`, `IOError`, `ValueError` (numpy broadcast failure)
and `KeyError` (registry miss on read). -/
inductive HdrErr where
  | headerDataError (msg : String)
  | headerTypeError (msg : String)
  | ioError
  | valueError (msg : String)
  | keyError
deriving DecidableEq

/-- Whether an optional error is a `HeaderTypeError`. -/
def isTypeErr : Option HdrErr → Bool
  | some (.headerTypeError _) => true
  | _ => false

/-- The header state: the canonical 348-byte block, its byte-order tag,
and the ancillary (`extra_data`) mapping. -/
structure AnalyzeHeader where
  block : List Nat
  endian : Endian
  extra_data : List (String × Int)
deriving DecidableEq

namespace AnalyzeHeader

/-- Decode the `w`-byte integer field at offset `off`. -/
def getI (h : AnalyzeHeader) (off w : Nat) : Int :=
  decodeIntEnd h.endian w (getBytes off w h.block)

/-- Write the `w`-byte integer field at offset `off`. -/
def setI (h : AnalyzeHeader) (off w : Nat) (v : Int) : AnalyzeHeader :=
  { h with block := setBytes off (encodeIntEnd h.endian w v) h.block }

/-- The `sizeof_hdr` field (i4 at offset 0). -/
def sizeof_hdr (h : AnalyzeHeader) : Int := h.getI 0 4

/-- Element `i` of the `dim` field (i2 array at offset 40). -/
def dimAt (h : AnalyzeHeader) (i : Nat) : Int := h.getI (40 + 2 * i) 2

/-- The `datatype` field (i2 at offset 70). -/
def datatype_code (h : AnalyzeHeader) : Int := h.getI 70 2

/-- The `bitpix` field (i2 at offset 72). -/
def bitpix (h : AnalyzeHeader) : Int := h.getI 72 2

/-- Bit pattern of element `i` of the `pixdim` field (f4 array at
offset 76). -/
def pixdimBits (h : AnalyzeHeader) (i : Nat) : Nat :=
  decodeLE (orientBytes h.endian (getBytes (76 + 4 * i) 4 h.block))

/-- Bit pattern of the `vox_offset` field (f4 at offset 108). -/
def voxOffsetBits (h : AnalyzeHeader) : Nat :=
  decodeLE (orientBytes h.endian (getBytes 108 4 h.block))

end AnalyzeHeader

/-- Python slice `l[start:stop]` semantics with negative-index
adjustment and clamping. -/
def pySlice {α : Type} (l : List α) (start stop : Int) : List α :=
  let n : Int := l.length
  let s0 := if start < 0 then start + n else start
  let e0 := if stop < 0 then stop + n else stop
  let s := (max 0 (min s0 n)).toNat
  let e := (max 0 (min e0 n)).toNat
  (l.drop s).take (e - s)

/-- The endianness heuristic `_guessed_endian`, a pure function of the
raw block interpreted under native order. -/
def guessed_endian (b : List Nat) : Endian :=
  if decodeIntEnd .native 2 (getBytes 40 2 b) = 0 then
    if decodeIntEnd .native 4 (getBytes 0 4 b) = 1543569408 then .swapped
    else .native
  else if 1 ≤ decodeIntEnd .native 2 (getBytes 40 2 b)
      ∧ decodeIntEnd .native 2 (getBytes 40 2 b) ≤ 7 then .native
  else .swapped

/-- The default empty header block of `_empty_headerdata`: zeros, then
`sizeof_hdr = 348`, `dim = 1` with `dim[0] = 0`, `pixdim = 1.0`,
`datatype = 16`, `bitpix = 32`, laid out under byte order `e`
(1065353216 is the bit pattern of 1.0f). -/
def empty_block (e : Endian) : List Nat :=
  let b0 := List.replicate 348 0
  let b1 := setBytes 0 (encodeIntEnd e 4 348) b0
  let b2 := setBytes 40
    (wordsConcat ((List.replicate 8 (1 : Int)).map (encodeIntEnd e 2))) b1
  let b3 := setBytes 40 (encodeIntEnd e 2 0) b2
  let b4 := setBytes 76
    (wordsConcat ((List.replicate 8 (1065353216 : Nat)).map
      (fun z => orientBytes e (encodeLE 4 z)))) b3
  let b5 := setBytes 70 (encodeIntEnd e 2 16) b4
  setBytes 72 (encodeIntEnd e 2 32) b5

/-- An empty header with the given byte order (the `binaryblock=None`
branch of `__init__`). -/
def empty_header (e : Endian) : AnalyzeHeader :=
  ⟨empty_block e, e, []⟩

/-- Outcome of one battery check: severity level, problem description,
and the fix annotations (`batteryrunners.Report`; modelled from the
spec, since `batteryrunners` is outside `src/`). -/
structure Report where
  level : Nat := 0
  problem_msg : String := ""
  fix_msg : String := ""
  fix_problem_msg : String := ""
deriving DecidableEq

/-- Check 1, `_chk_sizeof_hdr`: `sizeof_hdr` must be 348; fixable by
setting it; severity 30 when left unfixed. -/
def chk_sizeof_hdr (h : AnalyzeHeader) (fix : Bool) :
    AnalyzeHeader × Report :=
  if h.sizeof_hdr = 348 then (h, {})
  else if fix then
    (h.setI 0 4 348,
     { problem_msg := "sizeof_hdr should be 348",
       fix_msg := "set sizeof_hdr to 348" })
  else (h, { problem_msg := "sizeof_hdr should be 348", level := 30 })

/-- Check 2, `_chk_datatype`: the datatype code must be recognized and
supported (severity 40; never fixed).  Note the source tests
`dtype.type is np.void`, which also holds for the RGB record type. -/
def chk_datatype (h : AnalyzeHeader) (fix : Bool) :
    AnalyzeHeader × Report :=
  let base : Report :=
    match dtOfCode h.datatype_code with
    | Option.none => { level := 40, problem_msg := "data code not recognized" }
    | some d =>
      if dtTypeIsVoid d then
        { level := 40, problem_msg := "data code not supported" }
      else {}
  if fix then (h, { base with fix_problem_msg := "not attempting fix" })
  else (h, base)

/-- Check 3, `_chk_bitpix`: `bitpix` must equal 8 times the itemsize of
the datatype; unfixable (severity 10) when the datatype code is
invalid, otherwise fixable by rewriting `bitpix` (severity 10 when left
unfixed). -/
def chk_bitpix (h : AnalyzeHeader) (fix : Bool) :
    AnalyzeHeader × Report :=
  match dtOfCode h.datatype_code with
  | Option.none =>
    (h, { level := 10, problem_msg := "no valid datatype to fix bitpix",
          fix_msg := if fix then "no way to fix bitpix" else "" })
  | some d =>
    if (dtItemsize d * 8 : Int) = h.bitpix then (h, {})
    else if fix then
      (h.setI 72 2 (dtItemsize d * 8),
       { problem_msg := "bitpix does not match datatype",
         fix_msg := "setting bitpix to match datatype" })
    else
      (h, { problem_msg := "bitpix does not match datatype", level := 10 })

/-- Check 4, `_chk_pixdims`: `pixdim[1:4]` must be non-negative;
fixable by taking absolute values (severity 40 when left unfixed). -/
def chk_pixdims (h : AnalyzeHeader) (fix : Bool) :
    AnalyzeHeader × Report :=
  if !(f32IsNeg (h.pixdimBits 1) || f32IsNeg (h.pixdimBits 2)
       || f32IsNeg (h.pixdimBits 3)) then (h, {})
  else if fix then
    let absWords := [h.pixdimBits 1, h.pixdimBits 2, h.pixdimBits 3].map
      (fun z => orientBytes h.endian (encodeLE 4 (f32Abs z)))
    ({ h with block := setBytes 80 (wordsConcat absWords) h.block },
     { problem_msg := "pixdim[1,2,3] should be positive",
       fix_msg := "setting to abs of pixdim values" })
  else
    (h, { problem_msg := "pixdim[1,2,3] should be positive", level := 40 })

/-- Run the four checks of `_get_checks` in order, threading the header
(the `BatteryRunner` iteration; modelled from the spec, since
`batteryrunners` is outside `src/`). -/
def runChecks (h : AnalyzeHeader) (fix : Bool) :
    AnalyzeHeader × List Report :=
  let p1 := chk_sizeof_hdr h fix
  let p2 := chk_datatype p1.1 fix
  let p3 := chk_bitpix p2.1 fix
  let p4 := chk_pixdims p3.1 fix
  (p4.1, [p1.2, p2.2, p3.2, p4.2])

/-- Modelled from the spec: the default abort threshold applied by the
logging policy wrapped around `check_fix` (`imageglobals.error_level`
is outside `src/`; any threshold above the severity of a fixed report,
which is 0, behaves identically on the claims). -/
def errorLevel : Nat := 40

/-- `check_fix` with repair enabled: run the battery, then raise on the
first report whose severity reaches the configured threshold.  The
returned header is the (possibly repaired) post-battery state. -/
def check_fix (h : AnalyzeHeader) : Except HdrErr AnalyzeHeader :=
  match (runChecks h true).2.find?
      (fun r => errorLevel ≤ r.level && r.level != 0) with
  | some r => .error (.headerDataError r.problem_msg)
  | Option.none => .ok (runChecks h true).1

/-- `check_only`: run the battery with repair disabled and return the
(unmodified) header together with the reports of nonzero severity. -/
def check_only (h : AnalyzeHeader) : AnalyzeHeader × List Report :=
  let p := runChecks h false
  (p.1, p.2.filter (fun r => r.level != 0))

/-- Construction from a binary block (`__init__` with a block): reject
a wrong-size block, resolve the byte order (guessing from the raw bytes
when unspecified), copy the block, and optionally run `check_fix`.  The
ancillary mapping starts empty. -/
def from_binaryblock (b : List Nat) (endianness : Option Endian)
    (check : Bool) : Except HdrErr AnalyzeHeader :=
  if b.length ≠ 348 then .error (.headerDataError "Binary block is wrong size")
  else
    let e := match endianness with
      | some e => e
      | Option.none => guessed_endian b
    let h : AnalyzeHeader := ⟨b, e, []⟩
    if check then check_fix h else .ok h

/-- `as_byteswapped`: same target order copies the block; the opposite
order byteswaps it; either way the result is built through the
constructor with checks disabled (and hence an empty ancillary
mapping). -/
def as_byteswapped (h : AnalyzeHeader) (e : Endian) :
    Except HdrErr AnalyzeHeader :=
  if e = h.endian then from_binaryblock h.block (some h.endian) false
  else from_binaryblock (byteswapBlock h.block) (some e) false

/-- Header equality `__eq__`: byte-compare the blocks under a common
byte order (byteswapping the other block when the orders differ) and
compare the ancillary mappings. -/
def headerEqb (h1 h2 : AnalyzeHeader) : Bool :=
  if h1.endian = h2.endian then
    h1.block == h2.block && h1.extra_data == h2.extra_data
  else
    h1.block == byteswapBlock h2.block && h1.extra_data == h2.extra_data

/-- `get_data_shape`: rank 0 yields the one-element shape `(0,)`,
otherwise the `rank`-many leading entries of `dim[1:]` (via Python
slice semantics). -/
def get_data_shape (h : AnalyzeHeader) : List Int :=
  if h.dimAt 0 = 0 then [0]
  else pySlice ((List.range 8).map h.dimAt) 1 (h.dimAt 0 + 1)

/-- `set_data_shape`: reset all `dim` slots to 1, write the new rank,
then write the extents into `dim[1:]`.  A shape longer than 7 entries
raises numpy's broadcast `ValueError` after the rank write has already
happened, so the partially mutated header is returned alongside the
error. -/
def set_data_shape (h : AnalyzeHeader) (shape : List Int) :
    AnalyzeHeader × Option HdrErr :=
  let b1 := setBytes 40
    (wordsConcat ((List.replicate 8 (1 : Int)).map (encodeIntEnd h.endian 2)))
    h.block
  let b2 := setBytes 40 (encodeIntEnd h.endian 2 shape.length) b1
  if shape.length ≤ 7 then
    let b3 := setBytes 42 (wordsConcat (shape.map (encodeIntEnd h.endian 2))) b2
    ({ h with block := b3 }, Option.none)
  else
    ({ h with block := b2 },
     some (.valueError "could not broadcast input array"))

/-- `get_zooms`: rank 0 yields the empty tuple, otherwise the
`rank`-many leading entries of `pixdim[1:]` as (exact) float values. -/
def get_zooms (h : AnalyzeHeader) : List ℚ :=
  if h.dimAt 0 = 0 then []
  else pySlice ((List.range 8).map (fun i => f32ToRat (h.pixdimBits i)))
    1 (h.dimAt 0 + 1)

/-- `set_zooms`, taking the zoom values as IEEE-754 single bit
patterns: the count must equal the rank and no value may be negative,
else `HeaderDataError`; on success the patterns are stored into
`pixdim[1:rank+1]`. -/
def set_zooms (h : AnalyzeHeader) (zs : List Nat) :
    AnalyzeHeader × Option HdrErr :=
  if (zs.length : Int) ≠ h.dimAt 0 then
    (h, some (.headerDataError
      ("Expecting " ++ toString (h.dimAt 0) ++ " zoom values for ndim "
        ++ toString (h.dimAt 0))))
  else if zs.any f32IsNeg then
    (h, some (.headerDataError "zooms must be positive"))
  else if h.dimAt 0 ≤ 7 then
    let ws := zs.map (fun z => orientBytes h.endian (encodeLE 4 z))
    ({ h with block := setBytes 80 (wordsConcat ws) h.block }, Option.none)
  else (h, some (.valueError "could not broadcast input array"))

/-- `set_data_dtype`: resolve the key through the registry
(`HeaderDataError "not recognized"` on a miss), reject void-without-
fields dtypes (`HeaderDataError "known but not supported"`), and only
then write `datatype` and `bitpix = 8 * itemsize`.  Both raises occur
before either write, so a failing call leaves the header unchanged. -/
def set_data_dtype (h : AnalyzeHeader) (k : DtKey) :
    AnalyzeHeader × Option HdrErr :=
  match dtLookup k with
  | Option.none =>
    (h, some (.headerDataError
      ("data dtype \"" ++ keyRepr k ++ "\" not recognized")))
  | some d =>
    if dtIsVoidNoFields d then
      (h, some (.headerDataError
        ("data dtype \"" ++ keyRepr k ++ "\" known but not supported")))
    else (((h.setI 70 2 (dtCode d)).setI 72 2 (dtItemsize d * 8)),
          Option.none)

/-- `get_data_dtype`: the registry dtype of the `datatype` field, tagged
with the header's byte order (`dtype.newbyteorder(self.endianness)`);
a code outside the table raises `KeyError`. -/
def get_data_dtype (h : AnalyzeHeader) : Except HdrErr (Dt × Endian) :=
  match dtOfCode h.datatype_code with
  | Option.none => .error .keyError
  | some d => .ok (d, h.endian)

/-- The class-level default x-flip flag of `AnalyzeHeader`. -/
def default_x_flip : Bool := true

/-- `get_base_affine`: diagonal zooms (first axis negated under the
flip flag) and translation from the center of the image, assembled as
a 4x4 homogeneous matrix over exact rationals. -/
def get_base_affine (h : AnalyzeHeader) : List (List ℚ) :=
  let z1 := f32ToRat (h.pixdimBits 1)
  let z2 := f32ToRat (h.pixdimBits 2)
  let z3 := f32ToRat (h.pixdimBits 3)
  let zx := if default_x_flip then -z1 else z1
  let o1 : ℚ := ((h.dimAt 1 : ℚ) - 1) / 2
  let o2 : ℚ := ((h.dimAt 2 : ℚ) - 1) / 2
  let o3 : ℚ := ((h.dimAt 3 : ℚ) - 1) / 2
  [[zx, 0, 0, -o1 * zx],
   [0, z2, 0, -o2 * z2],
   [0, 0, z3, -o3 * z3],
   [0, 0, 0, 1]]

/-- Shape and element type of an array handed to the data-write
boundary. -/
structure DataArr where
  shape : List Int
  dtype : Dt
deriving DecidableEq

/-- A file-like object at the write boundary: its current position,
whether `seek` works (non-seekable streams raise `IOError`), and a
count of marshaller writes performed on it. -/
structure Fileobj where
  pos : Int
  seekWorks : Bool
  writeCount : Nat
deriving DecidableEq

/-- The declared voxel byte offset: `int(self._header_data['vox_offset'])`. -/
def vox_offset_int (h : AnalyzeHeader) : Int :=
  ratTrunc (f32ToRat h.voxOffsetBits)

/-- The shape-mismatch message of `_prepare_write`, naming the expected
shape. -/
def shape_msg (h : AnalyzeHeader) : String :=
  "Data should be shape ("
    ++ String.intercalate ", " ((get_data_shape h).map toString) ++ ")"

/-- `_prepare_write`: reject a shape mismatch with `HeaderDataError`,
then seek to `vox_offset`, tolerating a failed seek only when the
stream is already positioned there and re-raising any other seek
failure. -/
def prepare_write (h : AnalyzeHeader) (dshape : List Int) (f : Fileobj) :
    Fileobj × Option HdrErr :=
  if dshape ≠ get_data_shape h then
    (f, some (.headerDataError (shape_msg h)))
  else
    let off := vox_offset_int h
    if f.seekWorks then ({ f with pos := off }, Option.none)
    else if f.pos ≠ off then (f, some .ioError)
    else (f, Option.none)

/-- `write_raw_data`: prepare the stream, resolve the header's output
dtype through `get_data_dtype` (raising `KeyError` for an unrecognized
datatype code, after the seek and before any write), then hand the
array to the external marshaller (`array_to_file`, modelled as one
recorded write). -/
def write_raw_data (h : AnalyzeHeader) (d : DataArr) (f : Fileobj) :
    Fileobj × Option HdrErr :=
  match prepare_write h d.shape f with
  | (f1, some e) => (f1, some e)
  | (f1, Option.none) =>
    match get_data_dtype h with
    | .error e => (f1, some e)
    | .ok _ => ({ f1 with writeCount := f1.writeCount + 1 }, Option.none)

/-- Modelled from the spec: `volumeutils.can_cast` with neither slope
nor intercept capability (this variant has none) is a lossless-cast
predicate between the registry's native representations; `src/` holds
only its caller `_cast_check`. -/
def can_cast (t u : Dt) : Bool :=
  match t, u with
  | .uint8, .uint8 => true
  | .uint8, .int16 => true
  | .uint8, .int32 => true
  | .uint8, .float32 => true
  | .uint8, .float64 => true
  | .uint8, .complex64 => true
  | .int16, .int16 => true
  | .int16, .int32 => true
  | .int16, .float32 => true
  | .int16, .float64 => true
  | .int16, .complex64 => true
  | .int32, .int32 => true
  | .int32, .float64 => true
  | .float32, .float32 => true
  | .float32, .float64 => true
  | .float32, .complex64 => true
  | .float64, .float64 => true
  | .complex64, .complex64 => true
  | .RGB, .RGB => true
  | _, _ => false

/-- `_cast_check`: raise `HeaderTypeError` when the array's element
type cannot be cast to the header's declared representation without
precision loss. -/
def cast_check (h : AnalyzeHeader) (t : Dt) : Option HdrErr :=
  match dtOfCode h.datatype_code with
  | Option.none => some .keyError
  | some d =>
    if can_cast t d then Option.none
    else some (.headerTypeError
      "Cannot cast data to header dtype without large potential loss in precision")

/-- `write_data`: the cast-safety check runs first and fails without
touching the stream; on success it delegates to `write_raw_data`. -/
def write_data (h : AnalyzeHeader) (d : DataArr) (f : Fileobj) :
    Fileobj × Option HdrErr :=
  match cast_check h d.dtype with
  | some e => (f, some e)
  | Option.none => write_raw_data h d f

/-! ### Byte-block lemmas -/

theorem length_orientBytes (e : Endian) (l : List Nat) :
    (orientBytes e l).length = l.length := by
  cases e <;> simp [orientBytes]

theorem orientBytes_orientBytes (e : Endian) (l : List Nat) :
    orientBytes e (orientBytes e l) = l := by
  cases e <;> simp [orientBytes]

theorem length_encodeLE (w n : Nat) : (encodeLE w n).length = w := by
  induction w generalizing n with
  | zero => simp [encodeLE]
  | succ w ih => simp [encodeLE, ih]

theorem length_encodeIntEnd (e : Endian) (w : Nat) (v : Int) :
    (encodeIntEnd e w v).length = w := by
  simp [encodeIntEnd, length_orientBytes, length_encodeLE]

theorem length_setBytes (off : Nat) (l b : List Nat)
    (h : off + l.length ≤ b.length) :
    (setBytes off l b).length = b.length := by
  simp only [setBytes, List.length_append, List.length_take,
    List.length_drop]
  omega

theorem setBytes_assoc (off : Nat) (l b : List Nat) :
    setBytes off l b = b.take off ++ (l ++ b.drop (off + l.length)) := by
  simp [setBytes]

theorem getBytes_setBytes_self (off : Nat) (l b : List Nat)
    (h : off + l.length ≤ b.length) :
    getBytes off l.length (setBytes off l b) = l := by
  have h1 : (b.take off).length = off := by
    rw [List.length_take]
    omega
  rw [getBytes, setBytes_assoc, List.drop_append_eq_append_drop, h1,
    Nat.sub_self, List.drop_zero,
    List.drop_eq_nil_of_le (Nat.le_of_eq h1), List.nil_append,
    List.take_append_of_le_length (Nat.le_refl _), List.take_length]

theorem getBytes_setBytes_before (o n off : Nat) (l b : List Nat)
    (h1 : o + n ≤ off) (h2 : off + l.length ≤ b.length) :
    getBytes o n (setBytes off l b) = getBytes o n b := by
  have hlt : (b.take off).length = off := by
    rw [List.length_take]
    omega
  have hd : n ≤ (List.drop o (List.take off b)).length := by
    rw [List.length_drop, hlt]
    omega
  rw [getBytes, getBytes, setBytes_assoc, List.drop_append_eq_append_drop,
    List.take_append_of_le_length hd, List.drop_take, List.take_take,
    Nat.min_eq_left (by omega)]

theorem getBytes_setBytes_after (o n off : Nat) (l b : List Nat)
    (h1 : off + l.length ≤ o) (h2 : off + l.length ≤ b.length) :
    getBytes o n (setBytes off l b) = getBytes o n b := by
  have hlt : (b.take off).length = off := by
    rw [List.length_take]
    omega
  have he1 : (List.take off b).length ≤ o := by omega
  have he2 : l.length ≤ o - (List.take off b).length := by omega
  rw [getBytes, getBytes, setBytes_assoc, List.drop_append_eq_append_drop,
    List.drop_eq_nil_of_le he1, List.nil_append,
    List.drop_append_eq_append_drop, List.drop_eq_nil_of_le he2,
    List.nil_append, List.drop_drop]
  have he3 : off + l.length + (o - (List.take off b).length - l.length) = o := by
    omega
  rw [he3]

theorem getBytes_setBytes_inner (k m off : Nat) (l b : List Nat)
    (h1 : k + m ≤ l.length) (h2 : off + l.length ≤ b.length) :
    getBytes (off + k) m (setBytes off l b) = getBytes k m l := by
  have hlt : (b.take off).length = off := by
    rw [List.length_take]
    omega
  have he1 : (List.take off b).length ≤ off + k := by omega
  rw [getBytes, getBytes, setBytes_assoc, List.drop_append_eq_append_drop,
    List.drop_eq_nil_of_le he1, List.nil_append, hlt,
    Nat.add_sub_cancel_left, List.drop_append_eq_append_drop,
    List.take_append_of_le_length (by rw [List.length_drop]; omega)]

theorem getBytes_wordsConcat (w : Nat) (ws : List (List Nat)) (j : Nat)
    (x : List Nat) (hu : ∀ y ∈ ws, y.length = w) (hj : ws[j]? = some x) :
    getBytes (w * j) w (wordsConcat ws) = x := by
  induction ws generalizing j with
  | nil => simp at hj
  | cons z rest ih =>
    have hz : z.length = w := hu z (by simp)
    cases j with
    | zero =>
      simp at hj
      subst hj
      rw [Nat.mul_zero, getBytes, List.drop_zero, ← hz]
      show List.take z.length (z ++ wordsConcat rest) = z
      rw [List.take_append_of_le_length (Nat.le_refl _), List.take_length]
    | succ j =>
      simp at hj
      have hstep : getBytes (w * (j + 1)) w (wordsConcat (z :: rest)) =
          getBytes (w * j) w (wordsConcat rest) := by
        show getBytes (w * (j + 1)) w (z ++ wordsConcat rest) = _
        rw [Nat.mul_succ, getBytes, getBytes,
          List.drop_append_eq_append_drop,
          List.drop_eq_nil_of_le (by rw [hz]; omega), List.nil_append, hz,
          Nat.add_sub_cancel]
      rw [hstep]
      exact ih j (fun y hy => hu y (List.mem_cons_of_mem _ hy)) hj

theorem length_wordsConcat (w : Nat) (ws : List (List Nat))
    (hu : ∀ y ∈ ws, y.length = w) :
    (wordsConcat ws).length = w * ws.length := by
  induction ws with
  | nil => simp [wordsConcat]
  | cons z rest ih =>
    show (z ++ wordsConcat rest).length = _
    rw [List.length_append, hu z (by simp),
      ih (fun y hy => hu y (List.mem_cons_of_mem _ hy)), List.length_cons,
      Nat.mul_succ]
    omega

/-! ### Integer codec lemmas -/

theorem decodeIntEnd_encodeIntEnd_two (e : Endian) (v : Int)
    (hlo : -32768 ≤ v) (hhi : v < 32768) :
    decodeIntEnd e 2 (encodeIntEnd e 2 v) = v := by
  rw [decodeIntEnd, encodeIntEnd, orientBytes_orientBytes]
  simp only [decodeLE, encodeLE, List.foldr, toSigned]
  norm_num
  omega

theorem decodeIntEnd_encodeIntEnd_four (e : Endian) (v : Int)
    (hlo : -(2 ^ 31) ≤ v) (hhi : v < 2 ^ 31) :
    decodeIntEnd e 4 (encodeIntEnd e 4 v) = v := by
  rw [decodeIntEnd, encodeIntEnd, orientBytes_orientBytes]
  simp only [decodeLE, encodeLE, List.foldr, toSigned]
  norm_num
  omega

/-! ### Byteswap lemmas -/

theorem bsWalk_nil (ws : List Nat) : bsWalk ws [] = [] := by
  induction ws with
  | nil => rfl
  | cons w rest ih => simp [bsWalk, ih]

theorem length_bsWalk (ws : List Nat) (b : List Nat) :
    (bsWalk ws b).length = b.length := by
  induction ws generalizing b with
  | nil => rfl
  | cons w rest ih =>
    simp [bsWalk, ih]
    omega

theorem bsWalk_bsWalk (ws : List Nat) (b : List Nat) :
    bsWalk ws (bsWalk ws b) = b := by
  induction ws generalizing b with
  | nil => rfl
  | cons w rest ih =>
    by_cases hw : w ≤ b.length
    · have h1 : ((b.take w).reverse).length = w := by simp; omega
      rw [bsWalk, bsWalk, List.take_append_of_le_length (by omega),
        List.take_of_length_le (by omega), List.reverse_reverse,
        List.drop_append_eq_append_drop,
        List.drop_eq_nil_of_le (by omega), List.nil_append, h1,
        Nat.sub_self, List.drop_zero, ih, List.take_append_drop]
    · have hb : b.take w = b := List.take_of_length_le (by omega)
      have hd : b.drop w = [] := List.drop_eq_nil_of_le (by omega)
      rw [bsWalk, bsWalk, hb, hd, bsWalk_nil, List.append_nil,
        List.take_of_length_le (by simp; omega), List.reverse_reverse,
        List.drop_eq_nil_of_le (by simp; omega), bsWalk_nil,
        List.append_nil]

theorem bsWalk_append (ws1 ws2 : List Nat) (b : List Nat)
    (h : ws1.sum ≤ b.length) :
    bsWalk (ws1 ++ ws2) b =
      bsWalk ws1 (b.take ws1.sum) ++ bsWalk ws2 (b.drop ws1.sum) := by
  induction ws1 generalizing b with
  | nil => simp [bsWalk]
  | cons w rest ih =>
    have hS : (w :: rest).sum = w + rest.sum := by simp
    rw [hS] at h
    have hle : rest.sum ≤ (b.drop w).length := by
      rw [List.length_drop]
      omega
    show (b.take w).reverse ++ bsWalk (rest ++ ws2) (b.drop w) = _
    rw [ih (b.drop w) hle, hS]
    have e1 : (b.take (w + rest.sum)).take w = b.take w := by
      rw [List.take_take, Nat.min_eq_left (by omega)]
    have e2 : (b.take (w + rest.sum)).drop w = (b.drop w).take rest.sum := by
      rw [List.drop_take, Nat.add_sub_cancel_left]
    have e3 : b.drop (w + rest.sum) = (b.drop w).drop rest.sum := by
      rw [List.drop_drop, Nat.add_comm]
    show _ = bsWalk (w :: rest) (b.take (w + rest.sum))
      ++ bsWalk ws2 (b.drop (w + rest.sum))
    rw [bsWalk, e1, e2, e3, List.append_assoc]

theorem byteswapBlock_byteswapBlock (b : List Nat) :
    byteswapBlock (byteswapBlock b) = b :=
  bsWalk_bsWalk layoutWidths b

theorem getBytes_bsWalk (ws1 ws2 : List Nat) (w : Nat) (b : List Nat)
    (h : ws1.sum + w ≤ b.length) :
    getBytes ws1.sum w (bsWalk (ws1 ++ w :: ws2) b) =
      (getBytes ws1.sum w b).reverse := by
  have hlen : (bsWalk ws1 (b.take ws1.sum)).length = ws1.sum := by
    rw [length_bsWalk]
    simp
    omega
  rw [bsWalk_append ws1 (w :: ws2) b (by omega), getBytes,
    List.drop_append_eq_append_drop, List.drop_eq_nil_of_le (by omega),
    List.nil_append, hlen, Nat.sub_self, List.drop_zero, bsWalk]
  have h2 : (((b.drop ws1.sum).take w).reverse).length = w := by
    simp
    omega
  rw [List.take_append_of_le_length (by omega),
    List.take_of_length_le (by omega), getBytes]

/-- The layout widths strictly before the first `dim` element. -/
def dimPre : List Nat :=
  [4] ++ List.replicate 10 1 ++ List.replicate 18 1 ++ [4, 2, 1, 1]

/-- The layout widths strictly after the first `dim` element. -/
def dimSuf : List Nat :=
  List.replicate 7 2 ++ List.replicate 4 1 ++ List.replicate 8 1
    ++ [2, 2, 2, 2] ++ List.replicate 8 4
    ++ [4, 4, 4, 4, 4, 4, 4, 4, 4, 4]
    ++ List.replicate 80 1 ++ List.replicate 24 1 ++ [1]
    ++ List.replicate 10 1 ++ List.replicate 10 1 ++ List.replicate 10 1
    ++ List.replicate 10 1 ++ List.replicate 10 1 ++ List.replicate 10 1
    ++ List.replicate 3 1 ++ List.replicate 8 4

theorem layout_split_dim0 : layoutWidths = dimPre ++ 2 :: dimSuf := by
  decide

theorem dimPre_sum : dimPre.sum = 40 := by decide

theorem getBytes_byteswap_dim0 (b : List Nat) (hb : 42 ≤ b.length) :
    getBytes 40 2 (byteswapBlock b) = (getBytes 40 2 b).reverse := by
  have h := getBytes_bsWalk dimPre dimSuf 2 b
    (by rw [dimPre_sum]; omega)
  rw [dimPre_sum] at h
  rw [byteswapBlock, layout_split_dim0]
  exact h

theorem decodeIntEnd_opposite_reverse (e : Endian) (w : Nat)
    (bs : List Nat) :
    decodeIntEnd e.opposite w bs.reverse = decodeIntEnd e w bs := by
  cases e <;> simp [decodeIntEnd, Endian.opposite, orientBytes]

theorem Endian.opposite_ne (e : Endian) : e.opposite ≠ e := by
  cases e <;> simp [Endian.opposite]

theorem Endian.eq_opposite_of_ne (e e' : Endian) (h : e' ≠ e) :
    e' = e.opposite := by
  cases e <;> cases e' <;> simp_all [Endian.opposite]

/-! ### Header-level codec lemmas -/

theorem getBytes_setBytes_enc_self (e : Endian) (off w : Nat) (v : Int)
    (b : List Nat) (hb : off + w ≤ b.length) :
    getBytes off w (setBytes off (encodeIntEnd e w v) b)
      = encodeIntEnd e w v := by
  have hl := length_encodeIntEnd e w v
  have := getBytes_setBytes_self off (encodeIntEnd e w v) b (by omega)
  rwa [hl] at this

theorem length_setI (h : AnalyzeHeader) (off w : Nat) (v : Int)
    (hb : off + w ≤ h.block.length) :
    (h.setI off w v).block.length = h.block.length := by
  show (setBytes off (encodeIntEnd h.endian w v) h.block).length = _
  rw [length_setBytes]
  rw [length_encodeIntEnd]
  omega

theorem endian_setI (h : AnalyzeHeader) (off w : Nat) (v : Int) :
    (h.setI off w v).endian = h.endian := rfl

theorem extra_setI (h : AnalyzeHeader) (off w : Nat) (v : Int) :
    (h.setI off w v).extra_data = h.extra_data := rfl

theorem getI_setI_self_two (h : AnalyzeHeader) (off : Nat) (v : Int)
    (hb : off + 2 ≤ h.block.length) (hlo : -32768 ≤ v) (hhi : v < 32768) :
    (h.setI off 2 v).getI off 2 = v := by
  show decodeIntEnd h.endian 2
    (getBytes off 2 (setBytes off (encodeIntEnd h.endian 2 v) h.block)) = v
  rw [getBytes_setBytes_enc_self h.endian off 2 v h.block hb,
    decodeIntEnd_encodeIntEnd_two h.endian v hlo hhi]

theorem getI_setI_self_four (h : AnalyzeHeader) (off : Nat) (v : Int)
    (hb : off + 4 ≤ h.block.length) (hlo : -(2 ^ 31) ≤ v)
    (hhi : v < 2 ^ 31) :
    (h.setI off 4 v).getI off 4 = v := by
  show decodeIntEnd h.endian 4
    (getBytes off 4 (setBytes off (encodeIntEnd h.endian 4 v) h.block)) = v
  rw [getBytes_setBytes_enc_self h.endian off 4 v h.block hb,
    decodeIntEnd_encodeIntEnd_four h.endian v hlo hhi]

theorem getBytes_setI_frame (h : AnalyzeHeader) (off w : Nat) (v : Int)
    (o n : Nat) (hb : off + w ≤ h.block.length)
    (hd : o + n ≤ off ∨ off + w ≤ o) :
    getBytes o n (h.setI off w v).block = getBytes o n h.block := by
  show getBytes o n (setBytes off (encodeIntEnd h.endian w v) h.block) = _
  have hl := length_encodeIntEnd h.endian w v
  rcases hd with hd | hd
  · exact getBytes_setBytes_before o n off _ h.block
      (by omega) (by rw [hl]; omega)
  · exact getBytes_setBytes_after o n off _ h.block
      (by rw [hl]; omega) (by rw [hl]; omega)

theorem getI_setI_frame (h : AnalyzeHeader) (off w : Nat) (v : Int)
    (o n : Nat) (hb : off + w ≤ h.block.length)
    (hd : o + n ≤ off ∨ off + w ≤ o) :
    (h.setI off w v).getI o n = h.getI o n := by
  show decodeIntEnd h.endian n (getBytes o n (h.setI off w v).block) = _
  rw [getBytes_setI_frame h off w v o n hb hd]
  rfl

/-! ### Frame preservation through the mutating operations

`DimFrame h h'` records that an operation turned `h` into `h'` without
touching the rank slot `dim[0]`, the block length, the byte order, or
the ancillary mapping. -/

def DimFrame (h h' : AnalyzeHeader) : Prop :=
  h'.dimAt 0 = h.dimAt 0 ∧ h'.block.length = h.block.length
    ∧ h'.endian = h.endian ∧ h'.extra_data = h.extra_data

theorem dimFrame_refl (h : AnalyzeHeader) : DimFrame h h :=
  ⟨rfl, rfl, rfl, rfl⟩

theorem dimFrame_trans {h1 h2 h3 : AnalyzeHeader} (a : DimFrame h1 h2)
    (b : DimFrame h2 h3) : DimFrame h1 h3 := by
  obtain ⟨a1, a2, a3, a4⟩ := a
  obtain ⟨b1, b2, b3, b4⟩ := b
  exact ⟨b1.trans a1, b2.trans a2, b3.trans a3, b4.trans a4⟩

theorem dimFrame_setI (h : AnalyzeHeader) (off w : Nat) (v : Int)
    (hb : off + w ≤ h.block.length) (hd : off + w ≤ 40 ∨ 42 ≤ off) :
    DimFrame h (h.setI off w v) := by
  refine ⟨?_, length_setI h off w v hb, rfl, rfl⟩
  exact getI_setI_frame h off w v 40 2 hb (by omega)

theorem dimFrame_setBlock (h : AnalyzeHeader) (off : Nat) (l : List Nat)
    (hb : off + l.length ≤ h.block.length)
    (hd : off + l.length ≤ 40 ∨ 42 ≤ off) :
    DimFrame h { h with block := setBytes off l h.block } := by
  refine ⟨?_, length_setBytes off l h.block hb, rfl, rfl⟩
  show decodeIntEnd h.endian 2
    (getBytes 40 2 (setBytes off l h.block)) = _
  rcases hd with hd | hd
  · rw [getBytes_setBytes_after 40 2 off l h.block (by omega) hb]
    rfl
  · rw [getBytes_setBytes_before 40 2 off l h.block (by omega) hb]
    rfl

theorem length_wordsConcat_encInt (e : Endian) (vs : List Int) :
    (wordsConcat (vs.map (encodeIntEnd e 2))).length = 2 * vs.length := by
  have hu : ∀ y ∈ vs.map (encodeIntEnd e 2), y.length = 2 := by
    intro y hy
    obtain ⟨z, _, rfl⟩ := List.mem_map.mp hy
    exact length_encodeIntEnd e 2 z
  rw [length_wordsConcat 2 _ hu, List.length_map]

theorem dimFrame_chk_sizeof_hdr (h : AnalyzeHeader) (fix : Bool)
    (hb : h.block.length = 348) :
    DimFrame h (chk_sizeof_hdr h fix).1 := by
  unfold chk_sizeof_hdr
  split_ifs
  · exact dimFrame_refl h
  · exact dimFrame_setI h 0 4 348 (by omega) (by omega)
  · exact dimFrame_refl h

theorem dimFrame_chk_datatype (h : AnalyzeHeader) (fix : Bool) :
    DimFrame h (chk_datatype h fix).1 := by
  unfold chk_datatype
  split_ifs <;> exact dimFrame_refl h

theorem dimFrame_chk_bitpix (h : AnalyzeHeader) (fix : Bool)
    (hb : h.block.length = 348) :
    DimFrame h (chk_bitpix h fix).1 := by
  unfold chk_bitpix
  split
  · exact dimFrame_refl h
  · split_ifs
    · exact dimFrame_refl h
    · exact dimFrame_setI h 72 2 _ (by omega) (by omega)
    · exact dimFrame_refl h

theorem dimFrame_chk_pixdims (h : AnalyzeHeader) (fix : Bool)
    (hb : h.block.length = 348) :
    DimFrame h (chk_pixdims h fix).1 := by
  unfold chk_pixdims
  split_ifs
  · exact dimFrame_refl h
  · have hu : ∀ y ∈ [h.pixdimBits 1, h.pixdimBits 2, h.pixdimBits 3].map
        (fun z => orientBytes h.endian (encodeLE 4 (f32Abs z))),
        y.length = 4 := by
      intro y hy
      obtain ⟨z, _, rfl⟩ := List.mem_map.mp hy
      rw [length_orientBytes, length_encodeLE]
    have hl := length_wordsConcat 4 _ hu
    exact dimFrame_setBlock h 80 _ (by rw [hl]; simp [hb])
      (Or.inr (by norm_num))
  · exact dimFrame_refl h

theorem dimFrame_runChecks (h : AnalyzeHeader) (fix : Bool)
    (hb : h.block.length = 348) :
    DimFrame h (runChecks h fix).1 := by
  have f1 := dimFrame_chk_sizeof_hdr h fix hb
  have hb1 : (chk_sizeof_hdr h fix).1.block.length = 348 := by
    rw [f1.2.1, hb]
  have f2 := dimFrame_chk_datatype (chk_sizeof_hdr h fix).1 fix
  have hb2 : (chk_datatype (chk_sizeof_hdr h fix).1 fix).1.block.length = 348 := by
    rw [f2.2.1, hb1]
  have f3 := dimFrame_chk_bitpix (chk_datatype (chk_sizeof_hdr h fix).1 fix).1
    fix hb2
  have hb3 : (chk_bitpix (chk_datatype (chk_sizeof_hdr h fix).1 fix).1
      fix).1.block.length = 348 := by
    rw [f3.2.1, hb2]
  have f4 := dimFrame_chk_pixdims
    (chk_bitpix (chk_datatype (chk_sizeof_hdr h fix).1 fix).1 fix).1 fix hb3
  exact dimFrame_trans (dimFrame_trans (dimFrame_trans f1 f2) f3) f4

theorem dimFrame_set_data_dtype (h : AnalyzeHeader) (k : DtKey)
    (hb : h.block.length = 348) :
    DimFrame h (set_data_dtype h k).1 := by
  unfold set_data_dtype
  split
  · exact dimFrame_refl h
  · rename_i d hd
    split_ifs
    · exact dimFrame_refl h
    · have f1 := dimFrame_setI h 70 2 (dtCode d) (by omega) (by omega)
      have hb1 : (h.setI 70 2 (dtCode d)).block.length = 348 := by
        rw [f1.2.1, hb]
      have f2 := dimFrame_setI (h.setI 70 2 (dtCode d)) 72 2
        (dtItemsize d * 8) (by rw [hb1]; omega) (by omega)
      exact dimFrame_trans f1 f2

theorem dimFrame_set_zooms (h : AnalyzeHeader) (zs : List Nat)
    (hb : h.block.length = 348) (hd7 : h.dimAt 0 ≤ 7) :
    DimFrame h (set_zooms h zs).1 := by
  unfold set_zooms
  split_ifs with h1 h2 <;>
    try exact dimFrame_refl h
  have hu : ∀ y ∈ zs.map (fun z => orientBytes h.endian (encodeLE 4 z)),
      y.length = 4 := by
    intro y hy
    obtain ⟨z, _, rfl⟩ := List.mem_map.mp hy
    rw [length_orientBytes, length_encodeLE]
  have hl := length_wordsConcat 4 _ hu
  have hz7 : zs.length ≤ 7 := by
    have he : (zs.length : Int) = h.dimAt 0 := by push_neg at h1; exact h1
    omega
  exact dimFrame_setBlock h 80 _
    (by rw [hl, List.length_map]; omega) (Or.inr (by norm_num))

theorem from_binaryblock_nocheck (b : List Nat) (e : Endian)
    (hb : b.length = 348) :
    from_binaryblock b (some e) false = .ok ⟨b, e, []⟩ := by
  simp [from_binaryblock, hb]

theorem length_byteswapBlock (b : List Nat) :
    (byteswapBlock b).length = b.length :=
  length_bsWalk layoutWidths b

theorem as_byteswapped_dim (h : AnalyzeHeader) (e : Endian)
    (h' : AnalyzeHeader) (hb : h.block.length = 348)
    (hok : as_byteswapped h e = .ok h') :
    h'.dimAt 0 = h.dimAt 0 ∧ h'.block.length = 348
      ∧ h'.extra_data = [] := by
  unfold as_byteswapped at hok
  split_ifs at hok with he
  · rw [from_binaryblock_nocheck _ _ hb] at hok
    obtain rfl := (Except.ok.injEq _ _).mp hok.symm |>.symm
    exact ⟨rfl, hb, rfl⟩
  · rw [from_binaryblock_nocheck _ _ (by rw [length_byteswapBlock]; exact hb)]
      at hok
    obtain rfl := (Except.ok.injEq _ _).mp hok.symm |>.symm
    refine ⟨?_, by rw [length_byteswapBlock]; exact hb, rfl⟩
    show decodeIntEnd e 2 (getBytes 40 2 (byteswapBlock h.block)) = _
    rw [getBytes_byteswap_dim0 h.block (by omega),
      Endian.eq_opposite_of_ne h.endian e he,
      decodeIntEnd_opposite_reverse]
    rfl

theorem empty_header_length (e : Endian) :
    (empty_header e).block.length = 348 := by
  cases e <;> decide

theorem empty_header_dim0 (e : Endian) : (empty_header e).dimAt 0 = 0 := by
  cases e <;> decide

/-- Headers reachable from the empty constructor through the mutators
that do maintain the rank invariant: `set_data_shape` with at most 7
extents, `set_zooms`, `set_data_dtype`, the repair battery, and
`as_byteswapped`. -/
inductive ReachableHdr : AnalyzeHeader → Prop where
  | empty (e : Endian) : ReachableHdr (empty_header e)
  | shape (h : AnalyzeHeader) (s : List Int) (hr : ReachableHdr h)
      (hs : s.length ≤ 7) : ReachableHdr (set_data_shape h s).1
  | zooms (h : AnalyzeHeader) (zs : List Nat) (hr : ReachableHdr h) :
      ReachableHdr (set_zooms h zs).1
  | dtype (h : AnalyzeHeader) (k : DtKey) (hr : ReachableHdr h) :
      ReachableHdr (set_data_dtype h k).1
  | chkfix (h : AnalyzeHeader) (hr : ReachableHdr h) :
      ReachableHdr (runChecks h true).1
  | byteswap (h : AnalyzeHeader) (e : Endian) (h' : AnalyzeHeader)
      (hr : ReachableHdr h) (hok : as_byteswapped h e = .ok h') :
      ReachableHdr h'

/-- Base facts about `set_data_shape` on a well-formed header with at
most 7 extents: no error, byte order and ancillary data untouched,
block length kept, and the rank slot set to the shape's length. -/
theorem set_data_shape_base (h : AnalyzeHeader) (s : List Int)
    (hb : h.block.length = 348) (hs : s.length ≤ 7) :
    (set_data_shape h s).2 = Option.none
      ∧ (set_data_shape h s).1.endian = h.endian
      ∧ (set_data_shape h s).1.extra_data = h.extra_data
      ∧ (set_data_shape h s).1.block.length = 348
      ∧ (set_data_shape h s).1.dimAt 0 = s.length := by
  have hE16 := length_wordsConcat_encInt h.endian (List.replicate 8 (1 : Int))
  rw [List.length_replicate] at hE16
  have hE2 := length_encodeIntEnd h.endian 2 (s.length : Int)
  have hL := length_wordsConcat_encInt h.endian s
  have hb1 : (setBytes 40
      (wordsConcat ((List.replicate 8 (1 : Int)).map (encodeIntEnd h.endian 2)))
      h.block).length = 348 := by
    rw [length_setBytes _ _ _ (by rw [hE16]; omega), hb]
  have hb2 : (setBytes 40 (encodeIntEnd h.endian 2 (s.length : Int))
      (setBytes 40
        (wordsConcat ((List.replicate 8 (1 : Int)).map (encodeIntEnd h.endian 2)))
        h.block)).length = 348 := by
    rw [length_setBytes _ _ _ (by rw [hE2]; omega), hb1]
  simp only [set_data_shape, if_pos hs]
  refine ⟨trivial, trivial, trivial, ?_, ?_⟩
  · show (setBytes 42 _ _).length = 348
    rw [length_setBytes _ _ _ (by rw [hL]; omega), hb2]
  · show decodeIntEnd h.endian 2 (getBytes 40 2 (setBytes 42 _ _)) = _
    rw [getBytes_setBytes_before 40 2 42 _ _ (by omega) (by rw [hL]; omega)]
    have hself := getBytes_setBytes_enc_self h.endian 40 2 (s.length : Int)
      _ (by rw [hb1]; omega)
    rw [hself, decodeIntEnd_encodeIntEnd_two _ _ (by omega) (by omega)]

theorem reachable_invariant (h : AnalyzeHeader) (hr : ReachableHdr h) :
    h.block.length = 348 ∧ 0 ≤ h.dimAt 0 ∧ h.dimAt 0 ≤ 7 := by
  induction hr with
  | empty e =>
    refine ⟨empty_header_length e, ?_, ?_⟩ <;> rw [empty_header_dim0 e] <;>
      omega
  | shape h s hr hs ih =>
    have base := set_data_shape_base h s ih.1 hs
    refine ⟨base.2.2.2.1, ?_, ?_⟩ <;> rw [base.2.2.2.2] <;> omega
  | zooms h zs hr ih =>
    have f := dimFrame_set_zooms h zs ih.1 ih.2.2
    refine ⟨by rw [f.2.1, ih.1], ?_, ?_⟩ <;> rw [f.1]
    · exact ih.2.1
    · exact ih.2.2
  | dtype h k hr ih =>
    have f := dimFrame_set_data_dtype h k ih.1
    refine ⟨by rw [f.2.1, ih.1], ?_, ?_⟩ <;> rw [f.1]
    · exact ih.2.1
    · exact ih.2.2
  | chkfix h hr ih =>
    have f := dimFrame_runChecks h true ih.1
    refine ⟨by rw [f.2.1, ih.1], ?_, ?_⟩ <;> rw [f.1]
    · exact ih.2.1
    · exact ih.2.2
  | byteswap h e h' hr hok ih =>
    obtain ⟨hd, hl, _⟩ := as_byteswapped_dim h e h' ih.1 hok
    refine ⟨hl, ?_, ?_⟩ <;> rw [hd]
    · exact ih.2.1
    · exact ih.2.2

/-- C5 (amended): every header reachable from the empty constructor via
set_data_shape with at most 7 extents, set_zooms, set_data_dtype, the
repair battery, and as_byteswapped keeps its rank field dim[0] in
[0,7].  (Construction from raw bytes is excluded: no check validates
the rank, so it admits out-of-range values — see the counterexample.) -/
theorem c5_rank_invariant_amended (h : AnalyzeHeader)
    (hr : ReachableHdr h) : 0 ≤ h.dimAt 0 ∧ h.dimAt 0 ≤ 7 :=
  ⟨(reachable_invariant h hr).2.1, (reachable_invariant h hr).2.2⟩

/-- C5 witness: the rank bound holds at a concrete reachable header. -/
theorem c5_rank_invariant_witness :
    0 ≤ (set_data_shape (empty_header .native) [3, 5, 7]).1.dimAt 0
      ∧ (set_data_shape (empty_header .native) [3, 5, 7]).1.dimAt 0 ≤ 7 :=
  c5_rank_invariant_amended _
    (ReachableHdr.shape _ _ (ReachableHdr.empty .native) (by decide))

/-- C5 counterexample: a 348-byte block whose rank slot holds 9 passes
construction-from-bytes with checks enabled (no check validates the
rank), yielding a public-constructor header with dim[0] = 9 outside
[0,7]; the claim as stated is therefore false. -/
theorem c5_rank_invariant_counterexample :
    ((from_binaryblock ((empty_header .native).setI 40 2 9).block
        (some .native) true).toOption.map (fun h => h.dimAt 0))
      = some 9 := by
  decide

/-- C1 (amended): for every header `H` with an empty ancillary mapping,
reconstructing from `H`'s serialized block under `H`'s own byte order
with checks disabled yields a header equal to `H`, and converting to
the opposite byte order and back (as_byteswapped, which always
constructs with checks disabled) yields a header equal to `H`. -/
theorem c1_roundtrip_amended (h : AnalyzeHeader)
    (hb : h.block.length = 348) (hx : h.extra_data = []) :
    (from_binaryblock h.block (some h.endian) false).map
        (fun h2 => headerEqb h2 h) = .ok true
      ∧ ((as_byteswapped h h.endian.opposite).bind
          (fun h2 => as_byteswapped h2 h.endian)).map
          (fun h2 => headerEqb h2 h) = .ok true := by
  constructor
  · rw [from_binaryblock_nocheck h.block h.endian hb]
    show Except.ok (headerEqb ⟨h.block, h.endian, []⟩ h) = Except.ok true
    simp [headerEqb, hx]
  · rw [as_byteswapped, if_neg (Endian.opposite_ne h.endian),
      from_binaryblock_nocheck _ _ (by rw [length_byteswapBlock, hb])]
    show ((as_byteswapped ⟨byteswapBlock h.block, h.endian.opposite, []⟩
        h.endian).map (fun h2 => headerEqb h2 h)) = Except.ok true
    rw [as_byteswapped, if_neg (Ne.symm (Endian.opposite_ne h.endian)),
      from_binaryblock_nocheck _ _
        (by rw [length_byteswapBlock, length_byteswapBlock, hb]),
      byteswapBlock_byteswapBlock]
    show Except.ok (headerEqb ⟨h.block, h.endian, []⟩ h) = Except.ok true
    simp [headerEqb, hx]

/-- C1 witness: both round-trip legs hold at the default empty header. -/
theorem c1_roundtrip_witness :
    (from_binaryblock (empty_header .native).block
        (some (empty_header .native).endian) false).map
        (fun h2 => headerEqb h2 (empty_header .native)) = .ok true
      ∧ ((as_byteswapped (empty_header .native)
          (empty_header .native).endian.opposite).bind
          (fun h2 => as_byteswapped h2 (empty_header .native).endian)).map
          (fun h2 => headerEqb h2 (empty_header .native)) = .ok true :=
  c1_roundtrip_amended (empty_header .native) (by decide) (by decide)

/-- A header with one ancillary entry on an otherwise valid default
block — used to test ancillary preservation around the round trips. -/
def c1hdrExtra : AnalyzeHeader :=
  { empty_header .native with extra_data := [("k", 0)] }

/-- A default header whose sizeof_hdr field was zeroed — a block the
repair battery modifies. -/
def c1hdrBadSize : AnalyzeHeader := (empty_header .native).setI 0 4 0

/-- C1 counterexample: the claim as stated ("for every header H") is
false.  With an ancillary entry present, reconstruction from the
serialized block (checks enabled, per the constructor default) and the
double byteswap both return headers with an empty ancillary mapping,
which compare unequal to H; and with checks enabled a header whose
sizeof_hdr is 0 is repaired during reconstruction, which also compares
unequal. -/
theorem c1_roundtrip_counterexample :
    ((from_binaryblock c1hdrExtra.block (some c1hdrExtra.endian)
        true).toOption.map (fun h2 => headerEqb h2 c1hdrExtra)
      = some false)
    ∧ (((as_byteswapped c1hdrExtra c1hdrExtra.endian.opposite).bind
        (fun h2 => as_byteswapped h2 c1hdrExtra.endian)).toOption.map
        (fun h2 => headerEqb h2 c1hdrExtra) = some false)
    ∧ ((from_binaryblock c1hdrBadSize.block (some c1hdrBadSize.endian)
        true).toOption.map (fun h2 => headerEqb h2 c1hdrBadSize)
      = some false) := by
  decide

/-- C2: the endianness heuristic is a pure function of the raw block
read under native order: dim[0] in [1,7] forces native regardless of
sizeof_hdr (rule 1 takes precedence over the tie-break); dim[0] = 0
falls back to the sizeof_hdr tie-break (swapped exactly on the
byte-reversed pattern 1543569408); any other dim[0] (negative or above
7) gives swapped. -/
theorem c2_guessed_endian (b : List Nat) :
    (1 ≤ decodeIntEnd .native 2 (getBytes 40 2 b) →
      decodeIntEnd .native 2 (getBytes 40 2 b) ≤ 7 →
      guessed_endian b = .native)
    ∧ (decodeIntEnd .native 2 (getBytes 40 2 b) = 0 →
      decodeIntEnd .native 4 (getBytes 0 4 b) = 1543569408 →
      guessed_endian b = .swapped)
    ∧ (decodeIntEnd .native 2 (getBytes 40 2 b) = 0 →
      decodeIntEnd .native 4 (getBytes 0 4 b) ≠ 1543569408 →
      guessed_endian b = .native)
    ∧ ((decodeIntEnd .native 2 (getBytes 40 2 b) < 0
        ∨ 7 < decodeIntEnd .native 2 (getBytes 40 2 b)) →
      guessed_endian b = .swapped) := by
  refine ⟨?_, ?_, ?_, ?_⟩
  · intro h1 h2
    unfold guessed_endian
    rw [if_neg (by omega), if_pos ⟨h1, h2⟩]
  · intro h1 h2
    unfold guessed_endian
    rw [if_pos h1, if_pos h2]
  · intro h1 h2
    unfold guessed_endian
    rw [if_pos h1, if_neg h2]
  · intro h1
    unfold guessed_endian
    rw [if_neg (by omega), if_neg (by omega)]

/-- C2 witness: the heuristic evaluated at concrete blocks — a default
(native, rank 0, sizeof 348) block is guessed native via the
tie-break; zero rank with the byte-reversed size pattern is guessed
swapped; rank 3 overrides that same pattern back to native. -/
theorem c2_guessed_endian_witness :
    guessed_endian (empty_block .native) = .native
      ∧ guessed_endian
          (((empty_header .native).setI 40 2 0).setI 0 4 1543569408).block
          = .swapped
      ∧ guessed_endian
          (((empty_header .native).setI 40 2 3).setI 0 4 1543569408).block
          = .native :=
  ⟨(c2_guessed_endian _).2.2.1 (by decide) (by decide),
   (c2_guessed_endian _).2.1 (by decide) (by decide),
   (c2_guessed_endian _).1 (by decide) (by decide)⟩

/-- The C3 test header: a default native header whose sizeof_hdr was
zeroed and whose pixdim[1] was set to -1.0f (bit pattern 3212836864 =
0xBF800000). -/
def c3hdr : AnalyzeHeader :=
  let h := (empty_header .native).setI 0 4 0
  let w := orientBytes .native (encodeLE 4 3212836864)
  { h with block := setBytes 80 w h.block }

/-- C3: on a header with sizeof_hdr = 0 and a negative spacing,
check_fix (repair mode) succeeds without raising, sets sizeof_hdr to
348, replaces the spacings by absolute values (pixdim[1] becomes 1.0),
and records exactly two fix reports; check_only on the same header
returns it byte-for-byte unmodified together with exactly two
nonzero-severity problem reports (severities 30 and 40) and applies no
fix. -/
theorem c3_check_fix_check_only :
    ((check_fix c3hdr).toOption.map (fun h => h.sizeof_hdr)) = some 348
    ∧ ((check_fix c3hdr).toOption.map
        (fun h => f32IsNeg (h.pixdimBits 1) || f32IsNeg (h.pixdimBits 2)
          || f32IsNeg (h.pixdimBits 3))) = some false
    ∧ ((check_fix c3hdr).toOption.map (fun h => f32ToRat (h.pixdimBits 1)))
        = some 1
    ∧ ((runChecks c3hdr true).2.filter (fun r => r.fix_msg != "")).length = 2
    ∧ ((runChecks c3hdr true).2.map Report.fix_msg)
        = ["set sizeof_hdr to 348", "", "", "setting to abs of pixdim values"]
    ∧ (check_only c3hdr).1 = c3hdr
    ∧ (check_only c3hdr).2.length = 2
    ∧ ((check_only c3hdr).2.map Report.level) = [30, 40] := by
  decide

/-- C4 (amended): set_data_dtype with a uint8-equivalent key succeeds
and get_data_dtype returns the same representation (uint8, native
order); setting the recognized-but-unsupported code 0 fails with
HeaderDataError (not HeaderTypeError) saying known but not supported;
setting an unregistered label fails with HeaderDataError saying not
recognized. -/
theorem c4_set_data_dtype_amended :
    (set_data_dtype (empty_header .native) (.dtype .uint8)).2 = Option.none
    ∧ (get_data_dtype
        (set_data_dtype (empty_header .native) (.dtype .uint8)).1).toOption
        = some (.uint8, .native)
    ∧ (set_data_dtype (empty_header .native) (.code 0)).2
        = some (.headerDataError "data dtype \"0\" known but not supported")
    ∧ (set_data_dtype (empty_header .native) (.label "implausible")).2
        = some (.headerDataError
            "data dtype \"implausible\" not recognized") := by
  decide

/-- C4 counterexample: the error raised for the recognized-but-
unsupported code 0 is a HeaderDataError, not a HeaderTypeError-class
error as the claim states (the source raises HeaderDataError on both
failure paths of set_data_dtype). -/
theorem c4_set_data_dtype_counterexample :
    isTypeErr (set_data_dtype (empty_header .native) (.code 0)).2 = false
    ∧ (set_data_dtype (empty_header .native) (.code 0)).2
        = some (.headerDataError
            "data dtype \"0\" known but not supported") := by
  decide

theorem dtCode_range (d : Dt) : 0 ≤ dtCode d ∧ dtCode d < 32768 := by
  cases d <;> exact ⟨by decide, by decide⟩

theorem dtBitpix_range (d : Dt) :
    0 ≤ (dtItemsize d * 8 : Int) ∧ (dtItemsize d * 8 : Int) < 32768 := by
  cases d <;> exact ⟨by decide, by decide⟩

/-- C8: set_data_dtype is atomic — on success (key resolving to a
supported dtype) it reports no error, writes datatype = the resolved
code and bitpix = 8 times the representation's byte size, and changes
no byte outside the datatype/bitpix region [70,74); on failure the
returned header is exactly the input. -/
theorem c8_set_data_dtype_atomic (h : AnalyzeHeader) (k : DtKey) (d : Dt)
    (hb : h.block.length = 348) :
    (dtLookup k = some d → dtIsVoidNoFields d = false →
      (set_data_dtype h k).2 = Option.none
        ∧ (set_data_dtype h k).1.datatype_code = dtCode d
        ∧ (set_data_dtype h k).1.bitpix = dtItemsize d * 8
        ∧ (∀ o n : Nat, o + n ≤ 70 ∨ 74 ≤ o →
            getBytes o n (set_data_dtype h k).1.block
              = getBytes o n h.block)
        ∧ (set_data_dtype h k).1.endian = h.endian
        ∧ (set_data_dtype h k).1.extra_data = h.extra_data)
    ∧ ((set_data_dtype h k).2 ≠ Option.none →
        (set_data_dtype h k).1 = h) := by
  constructor
  · intro hk hv
    have hb1 : (h.setI 70 2 (dtCode d)).block.length = 348 := by
      rw [length_setI h 70 2 _ (by omega), hb]
    simp only [set_data_dtype, hk, hv, Bool.false_eq_true, if_false]
    refine ⟨trivial, ?_, ?_, ?_, rfl, rfl⟩
    · show ((h.setI 70 2 (dtCode d)).setI 72 2 _).getI 70 2 = dtCode d
      rw [getI_setI_frame _ 72 2 _ 70 2 (by rw [hb1]; omega) (by omega),
        getI_setI_self_two h 70 (dtCode d) (by omega)
          (by have := dtCode_range d; omega)
          (by have := dtCode_range d; omega)]
    · show ((h.setI 70 2 (dtCode d)).setI 72 2 _).getI 72 2 = _
      rw [getI_setI_self_two _ 72 _ (by rw [hb1]; omega)
        (by have := dtBitpix_range d; omega)
        (by have := dtBitpix_range d; omega)]
    · intro o n ho
      show getBytes o n ((h.setI 70 2 (dtCode d)).setI 72 2 _).block
        = getBytes o n h.block
      rw [getBytes_setI_frame _ 72 2 _ o n (by rw [hb1]; omega) (by omega),
        getBytes_setI_frame h 70 2 _ o n (by omega) (by omega)]
  · intro hne
    rcases hl : dtLookup k with _ | d2
    · simp only [set_data_dtype, hl]
    · simp only [set_data_dtype, hl] at hne ⊢
      split_ifs with hvd
      · rfl
      · simp [hvd] at hne

/-- C8 witness: the success leg at a concrete header and key — both
fields are written (uint8: code 2, bitpix 8) and bytes outside [70,74)
are untouched; the failure leg at code 0 leaves the header exactly as
it was. -/
theorem c8_set_data_dtype_witness :
    (set_data_dtype (empty_header .native) (.dtype .uint8)).1.datatype_code
        = 2
    ∧ (set_data_dtype (empty_header .native) (.dtype .uint8)).1.bitpix = 8
    ∧ getBytes 0 70
        (set_data_dtype (empty_header .native) (.dtype .uint8)).1.block
        = getBytes 0 70 (empty_header .native).block
    ∧ (set_data_dtype (empty_header .native) (.code 0)).1
        = empty_header .native := by
  have hok := (c8_set_data_dtype_atomic (empty_header .native)
    (.dtype .uint8) .uint8 (empty_header_length .native)).1
    (by decide) (by decide)
  have hfail := (c8_set_data_dtype_atomic (empty_header .native)
    (.code 0) .none (empty_header_length .native)).2 (by decide)
  refine ⟨?_, ?_, ?_, hfail⟩
  · rw [hok.2.1]
    decide
  · rw [hok.2.2.1]
    decide
  · exact hok.2.2.2.1 0 70 (by omega)

/-- C10: every header built from a byte block starts with an empty
ancillary mapping (including when construction runs the repair
battery), and as_byteswapped always returns a header with an empty
ancillary mapping, so ancillary entries never survive serialization or
byte-order conversion. -/
theorem c10_ancillary_empty (b : List Nat) (eo : Option Endian) (c : Bool)
    (h h2 : AnalyzeHeader) (e : Endian) :
    (∀ h', from_binaryblock b eo c = .ok h' → h'.extra_data = [])
    ∧ (as_byteswapped h e = .ok h2 → h2.extra_data = []) := by
  have key : ∀ (b' : List Nat) (eo' : Option Endian) (c' : Bool)
      (h' : AnalyzeHeader), from_binaryblock b' eo' c' = .ok h' →
      h'.extra_data = [] := by
    intro b' eo' c' h' hok
    unfold from_binaryblock at hok
    by_cases hlen : b'.length ≠ 348
    · rw [if_pos hlen] at hok
      simp at hok
    · rw [if_neg hlen] at hok
      cases c'
      · simp only [Bool.false_eq_true, if_false] at hok
        rw [← Except.ok.inj hok]
      · simp only [if_true] at hok
        unfold check_fix at hok
        split at hok
        · simp at hok
        · rw [← Except.ok.inj hok]
          exact (dimFrame_runChecks _ true (by simpa using hlen)).2.2.2
  constructor
  · exact fun h' => key b eo c h'
  · intro hok
    unfold as_byteswapped at hok
    split_ifs at hok
    · exact key _ _ _ _ hok
    · exact key _ _ _ _ hok

/-- Decidable equality of construction results, used to evaluate the
constructors at concrete inputs. -/
instance : DecidableEq (Except HdrErr AnalyzeHeader)
  | .error a, .error b =>
    if h : a = b then isTrue (by rw [h]) else
      isFalse (fun hc => h (Except.error.inj hc))
  | .error _, .ok _ => isFalse (fun hc => Except.noConfusion hc)
  | .ok _, .error _ => isFalse (fun hc => Except.noConfusion hc)
  | .ok a, .ok b =>
    if h : a = b then isTrue (by rw [h]) else
      isFalse (fun hc => h (Except.ok.inj hc))

/-- C10 witness: a header with an ancillary entry loses it through
byte-order conversion, and construction from its serialized block
(checks on) also starts with an empty mapping. -/
theorem c10_ancillary_empty_witness :
    ((as_byteswapped c1hdrExtra .swapped).toOption.map
      AnalyzeHeader.extra_data) = some []
    ∧ ((from_binaryblock c1hdrExtra.block (some .native) true).toOption.map
      AnalyzeHeader.extra_data) = some [] := by
  have hok1 : as_byteswapped c1hdrExtra .swapped
      = .ok (AnalyzeHeader.mk (byteswapBlock c1hdrExtra.block)
          .swapped []) := by decide
  have hok2 : from_binaryblock c1hdrExtra.block (some .native) true
      = .ok (AnalyzeHeader.mk c1hdrExtra.block .native []) := by decide
  have e1 := (c10_ancillary_empty c1hdrExtra.block (some .native) true
    c1hdrExtra (AnalyzeHeader.mk (byteswapBlock c1hdrExtra.block)
      .swapped []) .swapped).2 hok1
  have e2 := (c10_ancillary_empty c1hdrExtra.block (some .native) true
    c1hdrExtra c1hdrExtra .swapped).1
    (AnalyzeHeader.mk c1hdrExtra.block .native []) hok2
  constructor
  · rw [hok1]
    exact congrArg some e1
  · rw [hok2]
    exact congrArg some e2

theorem pySlice_int {α : Type} (l : List α) (a b : Int) (h0 : 0 ≤ a)
    (ha : a ≤ l.length) (hb0 : 0 ≤ b) (hb : b ≤ l.length) :
    pySlice l a b = (l.drop a.toNat).take (b.toNat - a.toNat) := by
  simp only [pySlice]
  rw [if_neg (by omega), if_neg (by omega),
    (by omega : (max 0 (min a (l.length : Int))).toNat = a.toNat),
    (by omega : (max 0 (min b (l.length : Int))).toNat = b.toNat)]

/-- Entry-level facts about `set_data_shape` with at most 7 in-range
extents: slot `j+1` of `dim` holds the written extent `s[j]`, and every
slot past the shape is reset to 1 (stale higher-dimension extents are
discarded). -/
theorem set_data_shape_entries (h : AnalyzeHeader) (s : List Int)
    (hb : h.block.length = 348) (hs : s.length ≤ 7)
    (hr : ∀ x ∈ s, -32768 ≤ x ∧ x < 32768) :
    (∀ (j : Nat) (x : Int), s[j]? = some x →
      (set_data_shape h s).1.dimAt (j + 1) = x)
    ∧ (∀ j : Nat, s.length + 1 ≤ j → j ≤ 7 →
      (set_data_shape h s).1.dimAt j = 1) := by
  have hE16 := length_wordsConcat_encInt h.endian (List.replicate 8 (1 : Int))
  rw [List.length_replicate] at hE16
  have hE2 := length_encodeIntEnd h.endian 2 (s.length : Int)
  have hL := length_wordsConcat_encInt h.endian s
  have hb1 : (setBytes 40
      (wordsConcat ((List.replicate 8 (1 : Int)).map (encodeIntEnd h.endian 2)))
      h.block).length = 348 := by
    rw [length_setBytes _ _ _ (by rw [hE16]; omega), hb]
  have hb2 : (setBytes 40 (encodeIntEnd h.endian 2 (s.length : Int))
      (setBytes 40
        (wordsConcat ((List.replicate 8 (1 : Int)).map (encodeIntEnd h.endian 2)))
        h.block)).length = 348 := by
    rw [length_setBytes _ _ _ (by rw [hE2]; omega), hb1]
  simp only [set_data_shape, if_pos hs]
  constructor
  · intro j x hj
    obtain ⟨hjl, hjx⟩ := List.getElem?_eq_some_iff.mp hj
    have harith : 40 + 2 * (j + 1) = 42 + 2 * j := by ring
    show decodeIntEnd h.endian 2 (getBytes (40 + 2 * (j + 1)) 2
      (setBytes 42 _ _)) = x
    rw [harith,
      getBytes_setBytes_inner (2 * j) 2 42 _ _
        (by rw [hL]; omega) (by rw [hL, hb2]; omega),
      getBytes_wordsConcat 2 (s.map (encodeIntEnd h.endian 2)) j
        (encodeIntEnd h.endian 2 x)
        (by
          intro y hy
          obtain ⟨z, _, rfl⟩ := List.mem_map.mp hy
          exact length_encodeIntEnd h.endian 2 z)
        (by simp [List.getElem?_map, hj]),
      decodeIntEnd_encodeIntEnd_two h.endian x
        (hr x (hjx ▸ List.getElem_mem hjl)).1
        (hr x (hjx ▸ List.getElem_mem hjl)).2]
  · intro j hj1 hj7
    show decodeIntEnd h.endian 2 (getBytes (40 + 2 * j) 2
      (setBytes 42 _ _)) = 1
    rw [getBytes_setBytes_after (40 + 2 * j) 2 42 _ _
        (by rw [hL]; omega) (by rw [hL, hb2]; omega),
      getBytes_setBytes_after (40 + 2 * j) 2 40 _ _
        (by rw [hE2]; omega) (by rw [hE2, hb1]; omega),
      getBytes_setBytes_inner (2 * j) 2 40 _ _
        (by rw [hE16]; omega) (by rw [hE16, hb]; omega),
      getBytes_wordsConcat 2 ((List.replicate 8 (1 : Int)).map
          (encodeIntEnd h.endian 2)) j (encodeIntEnd h.endian 2 1)
        (by
          intro y hy
          obtain ⟨z, _, rfl⟩ := List.mem_map.mp hy
          exact length_encodeIntEnd h.endian 2 z)
        (by
          have hj8 : j < 8 := by omega
          rw [List.getElem?_map, List.getElem?_replicate, if_pos hj8]
          rfl),
      decodeIntEnd_encodeIntEnd_two h.endian 1 (by omega) (by omega)]

/-- C6: get_data_shape returns the `dim[0]`-many leading entries of
`dim[1:]`, except that rank 0 yields the single-element shape `(0,)`
(shown here through `set_data_shape []`, which writes rank 0);
set_data_shape with a length-N shape (N in [1,7], extents in i16 range)
succeeds, resets every extent slot past N to 1, and a following
get_data_shape returns exactly the written shape. -/
theorem c6_shape_roundtrip (h : AnalyzeHeader) (s : List Int)
    (hb : h.block.length = 348) (hs1 : 1 ≤ s.length) (hs : s.length ≤ 7)
    (hr : ∀ x ∈ s, -32768 ≤ x ∧ x < 32768) :
    (set_data_shape h s).2 = Option.none
    ∧ get_data_shape (set_data_shape h s).1 = s
    ∧ (∀ j : Nat, s.length + 1 ≤ j → j ≤ 7 →
        (set_data_shape h s).1.dimAt j = 1)
    ∧ get_data_shape (set_data_shape h []).1 = [0] := by
  have base := set_data_shape_base h s hb hs
  have ent := set_data_shape_entries h s hb hs hr
  have base0 := set_data_shape_base h [] hb (by decide)
  refine ⟨base.1, ?_, ent.2, ?_⟩
  · rw [get_data_shape, if_neg (by rw [base.2.2.2.2]; omega)]
    have hlen8 : ((List.range 8).map (set_data_shape h s).1.dimAt).length
        = 8 := by simp
    rw [base.2.2.2.2,
      pySlice_int _ 1 ((s.length : Int) + 1) (by omega)
        (by rw [hlen8]; omega) (by omega) (by rw [hlen8]; omega),
      (by omega : (1 : Int).toNat = 1),
      (by omega : ((s.length : Int) + 1).toNat = s.length + 1),
      Nat.add_sub_cancel]
    apply List.ext_getElem
    · simp
      omega
    · intro i h1 h2
      rw [List.getElem_take, List.getElem_drop, List.getElem_map,
        List.getElem_range,
        (by ring : 1 + i = i + 1), ent.1 i s[i]
          (List.getElem?_eq_getElem h2)]
  · rw [get_data_shape, if_pos (by rw [base0.2.2.2.2]; simp)]

/-- C6 witness: set_data_shape((3,5,7)) then get_data_shape returns
(3,5,7) on the default header, the extent slot past the shape is reset
to 1, and writing the empty shape reports the rank-0 one-element shape
(0,). -/
theorem c6_shape_roundtrip_witness :
    get_data_shape (set_data_shape (empty_header .native) [3, 5, 7]).1
        = [3, 5, 7]
    ∧ (set_data_shape (empty_header .native) [3, 5, 7]).1.dimAt 4 = 1
    ∧ get_data_shape (set_data_shape (empty_header .native) []).1
        = [0] := by
  have hmain := c6_shape_roundtrip (empty_header .native) [3, 5, 7]
    (by decide) (by decide) (by decide) (by decide)
  exact ⟨hmain.2.1, hmain.2.2.1 4 (by decide) (by decide), hmain.2.2.2⟩

/-- The C7 test header: default native header with shape (3,5,7) and
zooms (3.0, 2.0, 1.0) (f32 bit patterns 0x40400000, 0x40000000,
0x3F800000). -/
def c7hdr : AnalyzeHeader :=
  (set_zooms (set_data_shape (empty_header .native) [3, 5, 7]).1
    [1077936128, 1073741824, 1065353216]).1

/-- C7: get_base_affine is the 4x4 homogeneous transform whose 3x3
linear part is diagonal with entries the spacings (first axis negated
under the default flip flag) and whose translation component i is
-((extent[i]-1)/2) times the signed spacing; at shape (3,5,7) with
spacing (3,2,1) the diagonal is (-3,2,1) with translation (3,-4,-3),
and after re-shaping to (3,5) the third translation component is 0. -/
theorem c7_base_affine (h : AnalyzeHeader) :
    get_base_affine h =
      [[-(f32ToRat (h.pixdimBits 1)), 0, 0,
          -(((h.dimAt 1 : ℚ) - 1) / 2) * -(f32ToRat (h.pixdimBits 1))],
       [0, f32ToRat (h.pixdimBits 2), 0,
          -(((h.dimAt 2 : ℚ) - 1) / 2) * f32ToRat (h.pixdimBits 2)],
       [0, 0, f32ToRat (h.pixdimBits 3),
          -(((h.dimAt 3 : ℚ) - 1) / 2) * f32ToRat (h.pixdimBits 3)],
       [0, 0, 0, 1]]
    ∧ get_base_affine c7hdr
        = [[-3, 0, 0, 3], [0, 2, 0, -4], [0, 0, 1, -3], [0, 0, 0, 1]]
    ∧ get_base_affine (set_data_shape c7hdr [3, 5]).1
        = [[-3, 0, 0, 3], [0, 2, 0, -4], [0, 0, 1, 0], [0, 0, 0, 1]] := by
  refine ⟨?_, ?_, ?_⟩
  · simp [get_base_affine, default_x_flip]
  · have d1 : c7hdr.dimAt 1 = 3 := by decide
    have d2 : c7hdr.dimAt 2 = 5 := by decide
    have d3 : c7hdr.dimAt 3 = 7 := by decide
    have z1 : f32ToRat (c7hdr.pixdimBits 1) = 3 := by decide
    have z2 : f32ToRat (c7hdr.pixdimBits 2) = 2 := by decide
    have z3 : f32ToRat (c7hdr.pixdimBits 3) = 1 := by decide
    simp only [get_base_affine, default_x_flip, if_true, d1, d2, d3,
      z1, z2, z3]
    norm_num
  · have d1 : (set_data_shape c7hdr [3, 5]).1.dimAt 1 = 3 := by decide
    have d2 : (set_data_shape c7hdr [3, 5]).1.dimAt 2 = 5 := by decide
    have d3 : (set_data_shape c7hdr [3, 5]).1.dimAt 3 = 1 := by decide
    have z1 : f32ToRat ((set_data_shape c7hdr [3, 5]).1.pixdimBits 1) = 3 := by
      decide
    have z2 : f32ToRat ((set_data_shape c7hdr [3, 5]).1.pixdimBits 2) = 2 := by
      decide
    have z3 : f32ToRat ((set_data_shape c7hdr [3, 5]).1.pixdimBits 3) = 1 := by
      decide
    simp only [get_base_affine, default_x_flip, if_true, d1, d2, d3,
      z1, z2, z3]
    norm_num

/-- C9: write_raw_data rejects a shape mismatch with HeaderDataError
naming the expected shape (stream untouched); with matching shape it
seeks to vox_offset (tolerating a failed seek only when the stream is
already positioned there, re-raising IOError otherwise), resolves the
header dtype — raising KeyError after the seek, with no write, when the
datatype code is unrecognized — and otherwise performs exactly one
marshaller write; write_data first runs the cast-safety check and fails
with HeaderTypeError without writing when the cast would lose
precision, and otherwise behaves exactly as write_raw_data. -/
theorem c9_write_boundary (h : AnalyzeHeader) (d : DataArr) (f : Fileobj)
    (dd : Dt) :
    (d.shape ≠ get_data_shape h →
      write_raw_data h d f = (f, some (.headerDataError (shape_msg h))))
    ∧ (d.shape = get_data_shape h → dtOfCode h.datatype_code = some dd →
      f.seekWorks = true →
      write_raw_data h d f = ({ f with pos := vox_offset_int h, writeCount := f.writeCount + 1 }, Option.none))
    ∧ (d.shape = get_data_shape h → dtOfCode h.datatype_code = some dd →
      f.seekWorks = false → f.pos = vox_offset_int h →
      write_raw_data h d f =
        ({ f with writeCount := f.writeCount + 1 }, Option.none))
    ∧ (d.shape = get_data_shape h → f.seekWorks = false →
      f.pos ≠ vox_offset_int h →
      write_raw_data h d f = (f, some .ioError))
    ∧ (d.shape = get_data_shape h →
      dtOfCode h.datatype_code = Option.none → f.seekWorks = true →
      write_raw_data h d f = ({ f with pos := vox_offset_int h }, some .keyError))
    ∧ (dtOfCode h.datatype_code = some dd → can_cast d.dtype dd = false →
      write_data h d f = (f, some (.headerTypeError
        "Cannot cast data to header dtype without large potential loss in precision")))
    ∧ (dtOfCode h.datatype_code = some dd → can_cast d.dtype dd = true →
      write_data h d f = write_raw_data h d f) := by
  refine ⟨?_, ?_, ?_, ?_, ?_, ?_, ?_⟩
  · intro hne
    simp [write_raw_data, prepare_write, hne]
  · intro hsh hdd hseek
    simp [write_raw_data, prepare_write, get_data_dtype, hsh, hdd, hseek]
  · intro hsh hdd hseek hpos
    simp [write_raw_data, prepare_write, get_data_dtype, hsh, hdd, hseek,
      hpos]
  · intro hsh hseek hpos
    simp [write_raw_data, prepare_write, hsh, hseek, hpos]
  · intro hsh hdd hseek
    simp [write_raw_data, prepare_write, get_data_dtype, hsh, hdd, hseek]
  · intro hdd hcc
    simp [write_data, cast_check, hdd, hcc]
  · intro hdd hcc
    simp [write_data, cast_check, hdd, hcc]

/-- The C9 test header: default native header with declared shape
(2,3) (datatype float32, vox_offset 0). -/
def c9hdr : AnalyzeHeader :=
  (set_data_shape (empty_header .native) [2, 3]).1

/-- The C9 invalid-dtype test header: the shape-(2,3) header with its
datatype field set to the unrecognized code 3. -/
def c9badhdr : AnalyzeHeader := c9hdr.setI 70 2 3

/-- C9 witness: at a concrete header of shape (2,3) — a mismatched
array is rejected with the message naming (2, 3); a float64 array is
rejected by the cast check with HeaderTypeError before any write; a
castable int16 array goes through write_raw_data with one recorded
write at offset 0; and on a header with the unrecognized datatype code
3, write_raw_data seeks and then raises KeyError with no write. -/
theorem c9_write_boundary_witness :
    write_raw_data c9hdr ⟨[9, 9], .float32⟩ ⟨0, true, 0⟩
        = (⟨0, true, 0⟩, some (.headerDataError "Data should be shape (2, 3)"))
    ∧ write_data c9hdr ⟨[2, 3], .float64⟩ ⟨0, true, 0⟩
        = (⟨0, true, 0⟩, some (.headerTypeError
            "Cannot cast data to header dtype without large potential loss in precision"))
    ∧ write_data c9hdr ⟨[2, 3], .int16⟩ ⟨5, true, 0⟩
        = (⟨0, true, 1⟩, Option.none)
    ∧ write_raw_data c9badhdr ⟨[2, 3], .float32⟩ ⟨5, true, 0⟩
        = (⟨0, true, 0⟩, some .keyError) := by
  refine ⟨?_, ?_, ?_, ?_⟩
  · have hmsg := (c9_write_boundary c9hdr ⟨[9, 9], .float32⟩ ⟨0, true, 0⟩
      .float32).1 (by decide)
    rw [hmsg]
    decide
  · have hcast := (c9_write_boundary c9hdr ⟨[2, 3], .float64⟩ ⟨0, true, 0⟩
      .float32).2.2.2.2.2.1 (by decide) (by decide)
    rw [hcast]
  · have hdel := (c9_write_boundary c9hdr ⟨[2, 3], .int16⟩ ⟨5, true, 0⟩
      .float32).2.2.2.2.2.2 (by decide) (by decide)
    have hseek := (c9_write_boundary c9hdr ⟨[2, 3], .int16⟩ ⟨5, true, 0⟩
      .float32).2.1 (by decide) (by decide) (by decide)
    rw [hdel, hseek]
    decide
  · have hkey := (c9_write_boundary c9badhdr ⟨[2, 3], .float32⟩ ⟨5, true, 0⟩
      .float32).2.2.2.2.1 (by decide) (by decide) (by decide)
    rw [hkey]
    decide
